import Mathlib

/-!
Verification of the sokutei benchmarking tool's core: the process-timing
abstraction, the statistics/runner engine and the comparison summary.

The Go source is shallowly embedded:
* `int64` values are modelled as `Int` (`Int.tdiv`/`Int.tmod` are Go's
  truncating integer division and remainder); the places where Go would
  panic (integer division by zero, `make` with a negative length) are
  modelled as explicit error values of the `Except` monad.
* `float64` values that the claims evaluate at exact small inputs are
  modelled as `ℚ`; the special values produced by float division are
  modelled by `GoFloat` (`0.0/0.0 = NaN`, `x/0.0 = ±Inf`).
* A child-process execution is modelled by the observable outcome the
  operating system hands back to the program (start success, exit code,
  elapsed times, success of each job-object API call).
-/

deriving instance DecidableEq for Except

/-- Source: the `denominators` table — `time.Hour` down to `time.Nanosecond`,
    in nanoseconds. -/
def denominators : List Int :=
  [3600000000000, 60000000000, 1000000000, 1000000, 1000, 1]

/-- Source: the `units` table. -/
def units : List String := ["h", "m", "s", "ms", "µs", "ns"]

/-- The scan of `getMeasurementMetrics`: first tier whose truncated quotient
    is positive; sentinel `(0, "")` when the scan falls through. -/
def gmLoop : List (Int × String) → Int → Int × String
  | [], _ => (0, "")
  | (denominator, unit) :: rest, timing =>
    if 0 < timing.tdiv denominator then (denominator, unit) else gmLoop rest timing

/-- Source: `getMeasurementMetrics(timing int64) (float64, string)`.
    The returned divisor is kept as the exact integer whose `float64` cast
    the source returns. -/
def getMeasurementMetrics (timing : Int) : Int × String :=
  gmLoop (denominators.zip units) timing

/-! ### Tokenizer (source: list2Cmdline) -/

def dquoteChar : Char := Char.ofNat 34

def squoteChar : Char := Char.ofNat 39

def backslashChar : Char := Char.ofNat 92

def spaceChar : Char := Char.ofNat 32

def tabChar : Char := Char.ofNat 9

/-- The loop body of `list2Cmdline`: `prev` is the previously scanned
    character (`none` at the first position, standing for `i == 0`),
    `inQuote` is the active quote character (`none` for the zero rune),
    `b` the pending builder and `parts` the accumulated arguments. -/
def list2CmdlineAux : List Char → Option Char → Option Char →
    List Char → List (List Char) → List (List Char)
  | [], _, _, b, parts => parts ++ [b]
  | ch :: rest, prev, inQuote, b, parts =>
    if (ch = dquoteChar ∨ ch = squoteChar) ∧ prev ≠ some backslashChar then
      match inQuote with
      | none => list2CmdlineAux rest (some ch) (some ch) b parts
      | some q =>
        if q = ch then list2CmdlineAux rest (some ch) none b parts
        else list2CmdlineAux rest (some ch) inQuote (b ++ [ch]) parts
    else if (ch = spaceChar ∨ ch = tabChar) ∧ inQuote = none then
      list2CmdlineAux rest (some ch) inQuote [] (parts ++ [b])
    else
      list2CmdlineAux rest (some ch) inQuote (b ++ [ch]) parts

/-- Source: `list2Cmdline(cmd string) []string`. The command string is a
    character list; the byte test `cmd[i-1] != '\\'` is the previous-character
    test (they agree on ASCII input, and a multi-byte rune's trailing byte is
    never a backslash). -/
def list2Cmdline (cmd : List Char) : List (List Char) :=
  list2CmdlineAux cmd none none [] []

/-- A Go `float64` at the exact inputs the claims evaluate: a finite value,
    kept symbolically as the exact fraction `num / den` it equals, or one of
    the special values float division can produce. -/
inductive GoFloat where
  | finite (num den : Int)
  | nan
  | posInf
  | negInf
deriving DecidableEq

/-- Go float64 division at exact integer operands: `0.0/0.0` is NaN,
    `x/0.0` is an infinity of the sign of `x`, and otherwise the result is
    the finite float of value `a / b`. -/
def goFloatDiv (a b : Int) : GoFloat :=
  if b = 0 then
    (if a = 0 then GoFloat.nan else if 0 < a then GoFloat.posInf else GoFloat.negInf)
  else GoFloat.finite a b

/-- Source: the numerator accumulation of `stdev` —
    `delta := value - mean; numerator += delta * delta`. -/
def stdevNumerator (values : List Int) (mean : Int) : Int :=
  values.foldl (fun numerator value => numerator + (value - mean) * (value - mean)) 0

/-- Source: `stdev(values []int64, mean int64) float64`, embedded up to the
    final `math.Sqrt` call: this is the value
    `float64(numerator) / float64(len(values)-1)` handed to `math.Sqrt`.
    `math.Sqrt` maps NaN to NaN, `+Inf` to `+Inf` and finite nonnegative
    arguments to finite results, so claims about the stdev being NaN or
    finite are settled on this value. -/
def stdevSqArg (values : List Int) (mean : Int) : GoFloat :=
  goFloatDiv (stdevNumerator values mean) ((values.length : Int) - 1)

/-! ### Statistics: the running-mean update (source: runBenchmark line
    `currentEstimate = (currentEstimate*i + elapsedRuns[i]) / (i + 1)`) -/

def updateRunningMean (previousMean previousCount newSample : Int) : Int :=
  (previousMean * previousCount + newSample).tdiv (previousCount + 1)

/-- The running-mean update folded sequentially over a sample list, starting
    from the zero-initialised accumulator, exactly as the measuring loop
    does. -/
def runningMeanFold (l : List Int) : Int :=
  (l.foldl (fun p x => (updateRunningMean p.1 p.2 x, p.2 + 1)) ((0 : Int), (0 : Int))).1

/-- The direct arithmetic mean the aggregation step computes: the sample sum
    divided (Go truncating division) by the sample count. -/
def directMean (l : List Int) : Int := l.sum.tdiv (l.length : Int)

/-- The state of `windowsTimer`: the three recorded durations. -/
structure WindowsTimer where
  userTime : Int
  kernelTime : Int
  realTime : Int
deriving DecidableEq

/-- The observable outcome the operating system hands one `windowsTimer.Run`
    invocation: success of each API step, the child's exit code, the elapsed
    wall clock between resume and exit, and the job-object accounting data. -/
structure WinProcessBehavior where
  startOk : Bool
  createJobOk : Bool
  openProcessOk : Bool
  assignOk : Bool
  mainThreadOk : Bool
  waitSyscallOk : Bool
  exitCode : Int
  elapsedReal : Int
  queryOk : Bool
  queryUserTime : Int
  queryKernelTime : Int
deriving DecidableEq

inductive WinRunError where
  | startFailed
  | createJobFailed
  | openProcessFailed
  | assignFailed
  | mainThreadFailed
  | waitFailed
  | queryFailed
deriving DecidableEq

/-- Go `exec.Cmd.Wait` returns a non-nil error iff waiting fails at the OS
    level or the child exits with a non-zero exit status (an `*ExitError`). -/
def cmdWaitErr (b : WinProcessBehavior) : Bool :=
  !b.waitSyscallOk || b.exitCode != 0

/-- Source: `windowsTimer.Run` — start the suspended process, create the job
    object, open and assign the process, find its main thread, resume, wait,
    record the wall clock, then query the job accounting. Each failing step
    returns its error, in source order. -/
def windowsTimerRun (w : WindowsTimer) (b : WinProcessBehavior) :
    Except WinRunError WindowsTimer :=
  if !b.startOk then Except.error WinRunError.startFailed
  else if !b.createJobOk then Except.error WinRunError.createJobFailed
  else if !b.openProcessOk then Except.error WinRunError.openProcessFailed
  else if !b.assignOk then Except.error WinRunError.assignFailed
  else if !b.mainThreadOk then Except.error WinRunError.mainThreadFailed
  else if cmdWaitErr b then Except.error WinRunError.waitFailed
  else
    let w1 : WindowsTimer := { w with realTime := b.elapsedReal }
    if !b.queryOk then Except.error WinRunError.queryFailed
    else Except.ok { w1 with userTime := b.queryUserTime, kernelTime := b.queryKernelTime }

/-- One measured iteration's timer readings (`GetRealTime`, `GetUserTime`,
    `GetKernelTime` after a successful `processTimer.Run`). -/
structure TimerSample where
  real : Int
  user : Int
  kernel : Int
deriving DecidableEq

/-- What one `processTimer.Run` invocation yields to the runner: an error or
    the recorded sample. -/
inductive IterOutcome where
  | err
  | ok (s : TimerSample)
deriving DecidableEq

/-- The ways the runner terminates without a result: the two explicit error
    returns of the source, and the two Go runtime panics its aggregation can
    hit (a negative `make` length and an integer division by zero). -/
inductive BenchError where
  | emptyCommand
  | setupRunFailed
  | warmupRunFailed
  | measuredRunFailed
  | negativeSliceLength
  | intDivByZero
deriving DecidableEq

/-- Source: `runSetup(ctx, cmdToSetup)` — tokenize, guard against an empty
    token list, then run the setup command once; `runOk` is whether that
    `Run` call succeeds. -/
def runSetup (cmdToSetup : List Char) (runOk : Bool) : Except BenchError Unit :=
  if (list2Cmdline cmdToSetup).length = 0 then Except.error BenchError.emptyCommand
  else if runOk then Except.ok () else Except.error BenchError.setupRunFailed

/-- One progress line: the running estimate shown and the ETA duration passed
    to `printProgressLine` (source: `etaEstimate := time.Duration(currentEstimate * (runs - i))`). -/
structure ProgressEntry where
  estimate : Int
  eta : Int
deriving DecidableEq

/-- The mutable state of the measuring loop. -/
structure LoopState where
  currentEstimate : Int
  totalUserTime : Int
  totalKernelTime : Int
  elapsedRuns : List Int
  progress : List ProgressEntry
deriving DecidableEq

def emptyLoopState : LoopState := ⟨0, 0, 0, [], []⟩

/-- Source: the measuring loop `for i := int64(0); i < runs; i++`. `timer`
    is the behaviour of `processTimer.Run` at each iteration index, `fuel`
    the number of remaining iterations. -/
def measureLoop (timer : Nat → IterOutcome) (runs : Int) :
    Nat → Nat → LoopState → Except BenchError LoopState
  | _, 0, st => Except.ok st
  | i, fuel + 1, st =>
    match timer i with
    | IterOutcome.err => Except.error BenchError.measuredRunFailed
    | IterOutcome.ok s =>
      let currentEstimate := updateRunningMean st.currentEstimate (i : Int) s.real
      let etaEstimate := currentEstimate * (runs - (i : Int))
      measureLoop timer runs (i + 1) fuel
        { currentEstimate := currentEstimate
          totalUserTime := st.totalUserTime + s.user
          totalKernelTime := st.totalKernelTime + s.kernel
          elapsedRuns := st.elapsedRuns ++ [s.real]
          progress := st.progress ++ [⟨currentEstimate, etaEstimate⟩] }

/-- Source: the aggregation pass — one fold computing min (seeded with
    `math.MaxInt64`), max (seeded with `math.MinInt64`) and the total. -/
def aggregateElapsed (elapsedRuns : List Int) : Int × Int × Int :=
  elapsedRuns.foldl
    (fun acc elapsed =>
      (if elapsed < acc.1 then elapsed else acc.1,
       if elapsed > acc.2.1 then elapsed else acc.2.1,
       acc.2.2 + elapsed))
    (9223372036854775807, -9223372036854775808, 0)

/-- Go integer division, with the divide-by-zero runtime panic made
    explicit. -/
def goIntDiv (a b : Int) : Except BenchError Int :=
  if b = 0 then Except.error BenchError.intDivByZero else Except.ok (a.tdiv b)

/-- Source: `benchmarkResult`. The float stdev is carried as the value
    passed to `math.Sqrt` (see `stdevSqArg`); the per-family display
    divisors are the exact integers whose float casts the source stores. -/
structure BenchmarkResult where
  cmd : List Char
  mean : Int
  stdevSq : GoFloat
  min : Int
  max : Int
  denominator : Int
  unit : String
  meanUserTime : Int
  userDenominator : Int
  userUnit : String
  meanKernelTime : Int
  kernelDenominator : Int
  kernelUnit : String
deriving DecidableEq

/-- Source: `runBenchmark(ctx, cmdToBenchmark)`. The package-level flag
    variables `warmup` and `runs` are parameters; `warmupOk` gives the
    success of each warmup `cmd.Run` and `timer` the behaviour of each
    measured `processTimer.Run`. Returns the emitted result together with
    the sequence of progress lines printed during the loop. -/
def runBenchmark (cmdToBenchmark : List Char) (warmup runs : Int)
    (warmupOk : Nat → Bool) (timer : Nat → IterOutcome) :
    Except BenchError (BenchmarkResult × List ProgressEntry) :=
  if (list2Cmdline cmdToBenchmark).length = 0 then
    Except.error BenchError.emptyCommand
  else if !(List.range warmup.toNat).all warmupOk then
    Except.error BenchError.warmupRunFailed
  else if runs < 0 then
    Except.error BenchError.negativeSliceLength
  else
    match measureLoop timer runs 0 runs.toNat emptyLoopState with
    | Except.error e => Except.error e
    | Except.ok st =>
      match goIntDiv (aggregateElapsed st.elapsedRuns).2.2 runs with
      | Except.error e => Except.error e
      | Except.ok mean =>
        match goIntDiv st.totalUserTime runs with
        | Except.error e => Except.error e
        | Except.ok meanUserTime =>
          match goIntDiv st.totalKernelTime runs with
          | Except.error e => Except.error e
          | Except.ok meanKernelTime =>
            Except.ok
              ({ cmd := cmdToBenchmark
                 mean := mean
                 stdevSq := stdevSqArg st.elapsedRuns mean
                 min := (aggregateElapsed st.elapsedRuns).1
                 max := (aggregateElapsed st.elapsedRuns).2.1
                 denominator := (getMeasurementMetrics mean).1
                 unit := (getMeasurementMetrics mean).2
                 meanUserTime := meanUserTime
                 userDenominator := (getMeasurementMetrics meanUserTime).1
                 userUnit := (getMeasurementMetrics meanUserTime).2
                 meanKernelTime := meanKernelTime
                 kernelDenominator := (getMeasurementMetrics meanKernelTime).1
                 kernelUnit := (getMeasurementMetrics meanKernelTime).2 }, st.progress)

/-- What the summary reads from each result: the command, the mean real time
    and the float stdev (an exact rational here; the claims evaluate it at
    exact inputs). -/
structure SummaryInput where
  cmd : String
  mean : Int
  stdev : ℚ
deriving DecidableEq

/-- One ratio line of the summary. -/
structure RatioEntry where
  ratio : ℚ
  uncertainty : ℚ
deriving DecidableEq

/-- Source: `sort.SliceStable(results, func(i, j int) bool { return results[i].mean < results[j].mean })`.
    A stable ascending sort by mean; insertion sort with the non-strict
    comparison computes exactly the stable ascending reordering. -/
def sortByMean (l : List SummaryInput) : List SummaryInput :=
  List.insertionSort (fun a b => a.mean ≤ b.mean) l

/-- Source: the summary loop over the sorted results — the first result
    becomes `fastestResult` and gets no ratio line; every later result gets
    its mean multiplier and the summed one-sided stdev deltas. -/
def summaryLoop : Option SummaryInput → List SummaryInput →
    List (SummaryInput × Option RatioEntry)
  | _, [] => []
  | none, result :: rest => (result, none) :: summaryLoop (some result) rest
  | some fastestResult, result :: rest =>
    let meanMultiplier : ℚ := (result.mean : ℚ) / (fastestResult.mean : ℚ)
    let posStdevMultiplier : ℚ :=
      ((result.mean : ℚ) + result.stdev) / ((fastestResult.mean : ℚ) + fastestResult.stdev)
        - meanMultiplier
    let negStdevMultiplier : ℚ :=
      meanMultiplier
        - ((result.mean : ℚ) - result.stdev) / ((fastestResult.mean : ℚ) - fastestResult.stdev)
    (result, some ⟨meanMultiplier, |posStdevMultiplier| + |negStdevMultiplier|⟩)
      :: summaryLoop (some fastestResult) rest

/-- Source: the summary block, guarded by `len(results) > 1`: stable-sort by
    mean, then walk the sorted list producing the baseline line and the
    ratio lines. -/
def compareResults (results : List SummaryInput) :
    List (SummaryInput × Option RatioEntry) :=
  if 1 < results.length then summaryLoop none (sortByMean results) else []

/-- The property the spec ascribes to the progress trace, corrected to the
    code's indexing: entry k (zero-based) carries eta = estimate * (runs - k). -/
def etaSpec (runs : Int) (l : List ProgressEntry) : Prop :=
  ∀ (k : Nat) (hk : k < l.length), l[k].eta = l[k].estimate * (runs - (k : Int))

/-! C7 machinery -/

instance : IsTotal SummaryInput (fun a b => a.mean ≤ b.mean) :=
  ⟨fun a b => le_total a.mean b.mean⟩

instance : IsTrans SummaryInput (fun a b => a.mean ≤ b.mean) :=
  ⟨fun _ _ _ hab hbc => le_trans hab hbc⟩

/-- From the spec's words: the relative speed ratio `mean / baselineMean`. -/
def specSpeedRatio (result baseline : SummaryInput) : ℚ :=
  (result.mean : ℚ) / (baseline.mean : ℚ)

/-- From the spec's words: the reported uncertainty
    `|(mean+stdev)/(baselineMean+stdev) - ratio| + |ratio - (mean-stdev)/(baselineMean-stdev)|`. -/
def specSpeedRatioUncertainty (result baseline : SummaryInput) : ℚ :=
  |((result.mean : ℚ) + result.stdev) / ((baseline.mean : ℚ) + baseline.stdev)
      - specSpeedRatio result baseline|
    + |specSpeedRatio result baseline
      - ((result.mean : ℚ) - result.stdev) / ((baseline.mean : ℚ) - baseline.stdev)|


/-! ### Concrete inputs used by the closed theorems and witnesses -/

def cmdX : List Char := [Char.ofNat 120]

def allWarmupsOk : Nat → Bool := fun _ => true

/-- A timer whose every run succeeds with real 42 ns, user 7 ns, kernel 3 ns. -/
def timer42 : Nat → IterOutcome := fun _ => IterOutcome.ok ⟨42, 7, 3⟩

/-- A timer whose every run succeeds with real 10 ns and zero CPU times. -/
def timer10 : Nat → IterOutcome := fun _ => IterOutcome.ok ⟨10, 0, 0⟩

/-- A timer whose `Run` returns a non-nil error (as it does for a non-zero
    child exit code). -/
def failingTimer : Nat → IterOutcome := fun _ => IterOutcome.err

def zeroTimer : WindowsTimer := ⟨0, 0, 0⟩

/-- A process execution in which every OS step succeeds, the child runs to
    completion, and it exits with exit code 1. -/
def exitOneBehavior : WinProcessBehavior :=
  ⟨true, true, true, true, true, true, 1, 5000, true, 10, 20⟩

/-- The result of benchmarking `timer10` twice: both samples are 10 ns. -/
def c2Result : BenchmarkResult :=
  ⟨cmdX, 10, GoFloat.finite 0 1, 10, 10, 1, "ns", 0, 0, "", 0, 0, ""⟩

def c2Trace : List ProgressEntry := [⟨10, 20⟩, ⟨10, 10⟩]

/-- The loop state after one measured iteration of `timer42`. -/
def c8St : LoopState := ⟨42, 7, 3, [42], [⟨42, 42⟩]⟩

/-- The result of benchmarking `timer42` once: a single 42 ns sample, whose
    stdev computation divides zero by zero. -/
def c8Result : BenchmarkResult :=
  ⟨cmdX, 42, GoFloat.nan, 42, 42, 1, "ns", 7, 1, "ns", 3, 1, "ns"⟩

def c8Trace : List ProgressEntry := [⟨42, 42⟩]

def sIn100 : SummaryInput := ⟨"cmdA", 100, 10⟩

def sIn50 : SummaryInput := ⟨"cmdB", 50, 5⟩

/-! ### Helper lemmas -/

/-! ### Go truncating division: helper lemmas -/

theorem tmod_bounds (a : Int) {b : Int} (hb : 0 < b) :
    -b < a.tmod b ∧ a.tmod b < b := by
  refine ⟨?_, Int.tmod_lt_of_pos a hb⟩
  rcases le_or_lt 0 a with ha | ha
  · have h0 := Int.tmod_nonneg b ha
    omega
  · have h1 : (-a).tmod b < b := Int.tmod_lt_of_pos _ hb
    have h2 : (-a).tmod b = -(a.tmod b) := by
      rw [Int.tmod_def, Int.tmod_def, Int.neg_tdiv]; ring
    omega

theorem tdiv_le_of_le_mul {a c n : Int} (hn : 0 < n) (h : a ≤ c * n) :
    a.tdiv n ≤ c := by
  have heq := Int.tdiv_add_tmod a n
  have hb := tmod_bounds a hn
  by_contra hlt
  push_neg at hlt
  have h1 : c + 1 ≤ a.tdiv n := hlt
  have h2 : (c + 1) * n ≤ a.tdiv n * n :=
    mul_le_mul_of_nonneg_right h1 (le_of_lt hn)
  nlinarith

theorem le_tdiv_of_mul_le {a c n : Int} (hn : 0 < n) (h : c * n ≤ a) :
    c ≤ a.tdiv n := by
  have heq := Int.tdiv_add_tmod a n
  have hb := tmod_bounds a hn
  by_contra hlt
  push_neg at hlt
  have h1 : a.tdiv n ≤ c - 1 := by omega
  have h2 : a.tdiv n * n ≤ (c - 1) * n :=
    mul_le_mul_of_nonneg_right h1 (le_of_lt hn)
  nlinarith

theorem tdiv_pos_iff {t d : Int} (hd : 0 < d) : 0 < t.tdiv d ↔ d ≤ t := by
  constructor
  · intro h
    have heq := Int.tdiv_add_tmod t d
    have hbd := tmod_bounds t hd
    have hdq : d * 1 ≤ d * t.tdiv d :=
      mul_le_mul_of_nonneg_left h (le_of_lt hd)
    have ht0 : 0 < t := by omega
    have hr : 0 ≤ t.tmod d := Int.tmod_nonneg d (le_of_lt ht0)
    omega
  · intro h
    exact le_tdiv_of_mul_le hd (by omega)

theorem tdiv_nonpos_of_lt {t d : Int} (hd : 0 < d) (h : t < d) : t.tdiv d ≤ 0 := by
  by_contra hc
  push_neg at hc
  exact absurd ((tdiv_pos_iff hd).1 hc) (by omega)

/-- The cast of Go's truncating quotient is within 1 of the exact quotient. -/
theorem tdiv_approx (a : Int) {b : Int} (hb : 0 < b) :
    |((a.tdiv b : Int) : ℚ) - (a : ℚ) / (b : ℚ)| < 1 := by
  have heq := Int.tdiv_add_tmod a b
  have hbd := tmod_bounds a hb
  have hbQ : (0 : ℚ) < (b : ℚ) := by exact_mod_cast hb
  have heqQ : ((b : ℚ)) * ((a.tdiv b : Int) : ℚ) + ((a.tmod b : Int) : ℚ) = (a : ℚ) := by
    exact_mod_cast congrArg (fun z : Int => (z : ℚ)) heq
  have hgap : ((a.tdiv b : Int) : ℚ) - (a : ℚ) / (b : ℚ)
      = -(((a.tmod b : Int) : ℚ) / (b : ℚ)) := by
    field_simp
    linarith [heqQ]
  rw [hgap, abs_neg, abs_div, abs_of_pos hbQ, div_lt_one hbQ]
  have h1 : ((a.tmod b : Int) : ℚ) < (b : ℚ) := by exact_mod_cast hbd.2
  have h2 : -(b : ℚ) < ((a.tmod b : Int) : ℚ) := by exact_mod_cast hbd.1
  rw [abs_lt]
  exact ⟨by linarith, h1⟩

/-- Closed form of the tier scan, obtained by unfolding the six tiers. -/
theorem getMeasurementMetrics_eq (t : Int) :
    getMeasurementMetrics t =
      if 3600000000000 ≤ t then (3600000000000, "h")
      else if 60000000000 ≤ t then (60000000000, "m")
      else if 1000000000 ≤ t then (1000000000, "s")
      else if 1000000 ≤ t then (1000000, "ms")
      else if 1000 ≤ t then (1000, "µs")
      else if 1 ≤ t then (1, "ns")
      else (0, "") := by
  show gmLoop _ t = _
  simp only [denominators, units, List.zip, List.zipWith, gmLoop,
    tdiv_pos_iff (by norm_num : (0:Int) < 3600000000000),
    tdiv_pos_iff (by norm_num : (0:Int) < 60000000000),
    tdiv_pos_iff (by norm_num : (0:Int) < 1000000000),
    tdiv_pos_iff (by norm_num : (0:Int) < 1000000),
    tdiv_pos_iff (by norm_num : (0:Int) < 1000),
    tdiv_pos_iff (by norm_num : (0:Int) < 1)]

/-! ### Inversion helpers -/

theorem except_bind_ok {ε α β : Type} (x : Except ε α) (f : α → Except ε β) (b : β) :
    (x >>= f) = Except.ok b ↔ ∃ a, x = Except.ok a ∧ f a = Except.ok b := by
  cases x <;> simp [Bind.bind, Except.bind]

theorem measureLoop_error_eq (timer : Nat → IterOutcome) (runs : Int) :
    ∀ (fuel i : Nat) (st : LoopState) (e : BenchError),
      measureLoop timer runs i fuel st = Except.error e →
      e = BenchError.measuredRunFailed := by
  intro fuel
  induction fuel with
  | zero => intro i st e h; simp [measureLoop] at h
  | succ n ih =>
    intro i st e h
    simp only [measureLoop] at h
    cases hti : timer i with
    | err => rw [hti] at h; cases h; rfl
    | ok s => rw [hti] at h; exact ih _ _ _ h

theorem measureLoop_ok_lengths (timer : Nat → IterOutcome) (runs : Int) :
    ∀ (fuel i : Nat) (st st' : LoopState),
      measureLoop timer runs i fuel st = Except.ok st' →
      st'.elapsedRuns.length = st.elapsedRuns.length + fuel ∧
      st'.progress.length = st.progress.length + fuel := by
  intro fuel
  induction fuel with
  | zero =>
    intro i st st' h
    simp only [measureLoop] at h
    cases h
    simp
  | succ n ih =>
    intro i st st' h
    simp only [measureLoop] at h
    cases hti : timer i with
    | err => rw [hti] at h; simp at h
    | ok s =>
      rw [hti] at h
      have := ih _ _ _ h
      simp only [List.length_append, List.length_cons, List.length_nil] at this
      omega

theorem etaSpec_append {runs : Int} {l : List ProgressEntry} {e : ProgressEntry}
    (h : etaSpec runs l) (he : e.eta = e.estimate * (runs - (l.length : Int))) :
    etaSpec runs (l ++ [e]) := by
  intro k hk
  rcases Nat.lt_or_ge k l.length with hlt | hge
  · rw [List.getElem_append_left hlt]
    exact h k hlt
  · have hk' : k = l.length := by
      simp only [List.length_append, List.length_cons, List.length_nil] at hk
      omega
    rw [List.getElem_concat_length l e k hk']
    rw [hk']
    exact he

theorem measureLoop_etaSpec (timer : Nat → IterOutcome) (runs : Int) :
    ∀ (fuel i : Nat) (st st' : LoopState),
      measureLoop timer runs i fuel st = Except.ok st' →
      st.progress.length = i →
      etaSpec runs st.progress →
      etaSpec runs st'.progress := by
  intro fuel
  induction fuel with
  | zero =>
    intro i st st' h hlen hspec
    simp only [measureLoop] at h
    cases h
    exact hspec
  | succ n ih =>
    intro i st st' h hlen hspec
    simp only [measureLoop] at h
    cases hti : timer i with
    | err => rw [hti] at h; cases h
    | ok s =>
      rw [hti] at h
      refine ih (i + 1) _ _ h ?_ ?_
      · simp [hlen]
      · exact etaSpec_append hspec (by rw [hlen])

theorem aggFold_spec :
    ∀ (l : List Int) (a b c : Int),
      (l.foldl
        (fun acc elapsed =>
          (if elapsed < acc.1 then elapsed else acc.1,
           if elapsed > acc.2.1 then elapsed else acc.2.1,
           acc.2.2 + elapsed)) (a, b, c)).2.2 = c + l.sum ∧
      (l.foldl
        (fun acc elapsed =>
          (if elapsed < acc.1 then elapsed else acc.1,
           if elapsed > acc.2.1 then elapsed else acc.2.1,
           acc.2.2 + elapsed)) (a, b, c)).1 ≤ a ∧
      b ≤ (l.foldl
        (fun acc elapsed =>
          (if elapsed < acc.1 then elapsed else acc.1,
           if elapsed > acc.2.1 then elapsed else acc.2.1,
           acc.2.2 + elapsed)) (a, b, c)).2.1 ∧
      ∀ x ∈ l,
        (l.foldl
          (fun acc elapsed =>
            (if elapsed < acc.1 then elapsed else acc.1,
             if elapsed > acc.2.1 then elapsed else acc.2.1,
             acc.2.2 + elapsed)) (a, b, c)).1 ≤ x ∧
        x ≤ (l.foldl
          (fun acc elapsed =>
            (if elapsed < acc.1 then elapsed else acc.1,
             if elapsed > acc.2.1 then elapsed else acc.2.1,
             acc.2.2 + elapsed)) (a, b, c)).2.1 := by
  intro l
  induction l with
  | nil => intro a b c; simp
  | cons x xs ih =>
    intro a b c
    simp only [List.foldl_cons, List.sum_cons, List.mem_cons]
    obtain ⟨h1, h2, h3, h4⟩ :=
      ih (if x < a then x else a) (if x > b then x else b) (c + x)
    refine ⟨by rw [h1]; ring, ?_, ?_, ?_⟩
    · exact le_trans h2 (by split_ifs <;> omega)
    · exact le_trans (by split_ifs <;> omega) h3
    · intro y hy
      rcases hy with rfl | hy
      · exact ⟨le_trans h2 (by split_ifs <;> omega),
          le_trans (by split_ifs <;> omega) h3⟩
      · exact h4 y hy

theorem aggregateElapsed_spec (l : List Int) :
    (aggregateElapsed l).2.2 = l.sum ∧
    ∀ x ∈ l, (aggregateElapsed l).1 ≤ x ∧ x ≤ (aggregateElapsed l).2.1 := by
  have h := aggFold_spec l 9223372036854775807 (-9223372036854775808) 0
  exact ⟨by simpa [aggregateElapsed] using h.1, fun x hx => (h.2.2.2 x hx)⟩

theorem mul_length_le_sum :
    ∀ (l : List Int) (c : Int), (∀ x ∈ l, c ≤ x) → c * (l.length : Int) ≤ l.sum := by
  intro l
  induction l with
  | nil => intro c _; simp
  | cons x xs ih =>
    intro c hc
    have h1 := ih c (fun y hy => hc y (List.mem_cons_of_mem x hy))
    have h2 := hc x (List.mem_cons_self x xs)
    simp only [List.sum_cons, List.length_cons]
    push_cast
    linarith

theorem sum_le_mul_length :
    ∀ (l : List Int) (c : Int), (∀ x ∈ l, x ≤ c) → l.sum ≤ c * (l.length : Int) := by
  intro l
  induction l with
  | nil => intro c _; simp
  | cons x xs ih =>
    intro c hc
    have h1 := ih c (fun y hy => hc y (List.mem_cons_of_mem x hy))
    have h2 := hc x (List.mem_cons_self x xs)
    simp only [List.sum_cons, List.length_cons]
    push_cast
    linarith

theorem runBenchmark_ok_inv
    {cmd : List Char} {warmup runs : Int} {warmupOk : Nat → Bool}
    {timer : Nat → IterOutcome} {r : BenchmarkResult} {trace : List ProgressEntry}
    (h : runBenchmark cmd warmup runs warmupOk timer = Except.ok (r, trace)) :
    ∃ st, measureLoop timer runs 0 runs.toNat emptyLoopState = Except.ok st ∧
      0 < runs ∧
      trace = st.progress ∧
      r.min = (aggregateElapsed st.elapsedRuns).1 ∧
      r.max = (aggregateElapsed st.elapsedRuns).2.1 ∧
      r.mean = (aggregateElapsed st.elapsedRuns).2.2.tdiv runs ∧
      r.stdevSq = stdevSqArg st.elapsedRuns r.mean := by
  unfold runBenchmark at h
  split_ifs at h with h1 h2 h3
  split at h
  · cases h
  case _ st hst =>
  split at h
  · cases h
  case _ mean hmean =>
  split at h
  · cases h
  case _ meanU hmeanU =>
  split at h
  · cases h
  case _ meanK hmeanK =>
  unfold goIntDiv at hmean
  split_ifs at hmean with hz
  cases hmean
  cases h
  exact ⟨st, hst, by omega, rfl, rfl, rfl, rfl, rfl⟩

theorem runningFold_bound :
    ∀ (l : List Int) (m i sum0 : Int),
      ((i = 0 ∧ m = 0 ∧ sum0 = 0) ∨
       (1 ≤ i ∧ |(m : ℚ) - (sum0 : ℚ) / (i : ℚ)| ≤ (i : ℚ) - 1)) →
      (1 : Int) ≤ i + l.length →
      |(((l.foldl (fun p x => (updateRunningMean p.1 p.2 x, p.2 + 1)) (m, i)).1 : Int) : ℚ)
          - ((sum0 : ℚ) + (l.sum : ℚ)) / ((i : ℚ) + (l.length : ℚ))|
        ≤ (i : ℚ) + (l.length : ℚ) - 1 := by
  intro l
  induction l with
  | nil =>
    intro m i sum0 hinv hlen
    rcases hinv with ⟨hi, _, _⟩ | ⟨hi, hb⟩
    · simp only [List.length_nil] at hlen; omega
    · simpa using hb
  | cons x xs ih =>
    intro m i sum0 hinv hlen
    simp only [List.foldl_cons]
    have hkey : |((updateRunningMean m i x : Int) : ℚ)
          - (((sum0 + x : Int) : ℚ)) / (((i + 1 : Int) : ℚ))|
        ≤ (((i + 1 : Int) : ℚ)) - 1 := by
      rcases hinv with ⟨hi, hm, hs⟩ | ⟨hi, hb⟩
      · subst hi; subst hm; subst hs
        have hM0 : updateRunningMean 0 0 x = x := by
          simp [updateRunningMean, Int.tdiv_one]
        rw [hM0,
          show ((0 + x : Int) : ℚ) = (x : ℚ) by push_cast; ring,
          show ((0 + 1 : Int) : ℚ) = (1 : ℚ) by push_cast; ring]
        simp
      · have hipos : (0 : ℚ) < (i : ℚ) := by exact_mod_cast hi
        have hbpos : (0 : ℚ) < (i : ℚ) + 1 := by linarith
        have hbposI : (0 : Int) < i + 1 := by omega
        have hM : updateRunningMean m i x = (m * i + x).tdiv (i + 1) := rfl
        have h1 : |(((m * i + x).tdiv (i + 1) : Int) : ℚ)
            - ((m * i + x : Int) : ℚ) / ((i + 1 : Int) : ℚ)| < 1 :=
          tdiv_approx (m * i + x) hbposI
        have hA : ((m * i + x : Int) : ℚ) / ((i + 1 : Int) : ℚ)
            - ((sum0 + x : Int) : ℚ) / ((i + 1 : Int) : ℚ)
            = ((i : ℚ) * ((m : ℚ) - (sum0 : ℚ) / (i : ℚ))) / ((i : ℚ) + 1) := by
          have hine : (i : ℚ) ≠ 0 := ne_of_gt hipos
          have hbne : (i : ℚ) + 1 ≠ 0 := ne_of_gt hbpos
          push_cast
          field_simp
          try ring
        have h3 : |((i : ℚ) * ((m : ℚ) - (sum0 : ℚ) / (i : ℚ))) / ((i : ℚ) + 1)|
            ≤ ((i : ℚ) * ((i : ℚ) - 1)) / ((i : ℚ) + 1) := by
          rw [abs_div, abs_of_pos hbpos, abs_mul, abs_of_pos hipos]
          gcongr
        have h4 : ((i : ℚ) * ((i : ℚ) - 1)) / ((i : ℚ) + 1) ≤ (i : ℚ) - 1 := by
          rw [div_le_iff₀ hbpos]
          have hge : (1 : ℚ) ≤ (i : ℚ) := by exact_mod_cast hi
          nlinarith
        have htri := abs_sub_le
          (((m * i + x).tdiv (i + 1) : Int) : ℚ)
          (((m * i + x : Int) : ℚ) / ((i + 1 : Int) : ℚ))
          (((sum0 + x : Int) : ℚ) / ((i + 1 : Int) : ℚ))
        rw [hA] at htri
        rw [hM]
        have hgoalcast : ((i + 1 : Int) : ℚ) - 1 = (i : ℚ) := by push_cast; ring
        rw [hgoalcast]
        calc |(((m * i + x).tdiv (i + 1) : Int) : ℚ)
              - ((sum0 + x : Int) : ℚ) / ((i + 1 : Int) : ℚ)|
            ≤ _ := htri
          _ ≤ 1 + ((i : ℚ) * ((i : ℚ) - 1)) / ((i : ℚ) + 1) := by linarith
          _ ≤ 1 + ((i : ℚ) - 1) := by linarith
          _ = (i : ℚ) := by ring
    have hIH := ih (updateRunningMean m i x) (i + 1) (sum0 + x)
      (Or.inr ⟨by omega, hkey⟩)
      (by simp only [List.length_cons] at hlen ⊢; omega)
    have heq1 : ((sum0 : ℚ) + ((x :: xs).sum : ℚ))
        = ((sum0 + x : Int) : ℚ) + (xs.sum : ℚ) := by
      push_cast [List.sum_cons]
      ring
    have heq2 : ((i : ℚ) + (((x :: xs).length : Nat) : ℚ))
        = ((i + 1 : Int) : ℚ) + ((xs.length : Nat) : ℚ) := by
      push_cast [List.length_cons]
      ring
    rw [heq1, heq2]
    exact hIH

theorem runningMeanFold_close (l : List Int) (hne : l ≠ []) :
    (runningMeanFold l - directMean l).natAbs < l.length := by
  have hlen : 1 ≤ l.length := List.length_pos.mpr hne
  have hlenI : (1 : Int) ≤ (0 : Int) + l.length := by
    omega
  have hfold := runningFold_bound l 0 0 0 (Or.inl ⟨rfl, rfl, rfl⟩) hlenI
  have hlenQpos : (0 : ℚ) < (l.length : ℚ) := by exact_mod_cast hlen
  have hlenIpos : (0 : Int) < (l.length : Int) := by exact_mod_cast hlen
  have hdirect : |((directMean l : Int) : ℚ) - (l.sum : ℚ) / (l.length : ℚ)| < 1 := by
    have := tdiv_approx l.sum hlenIpos
    simpa [directMean] using this
  simp only [Int.cast_zero, zero_add] at hfold
  have htri := abs_sub_le ((runningMeanFold l : Int) : ℚ)
    ((l.sum : ℚ) / (l.length : ℚ)) ((directMean l : Int) : ℚ)
  have hfold' : |((runningMeanFold l : Int) : ℚ) - (l.sum : ℚ) / (l.length : ℚ)|
      ≤ (l.length : ℚ) - 1 := by
    simpa [runningMeanFold] using hfold
  have habs : |((runningMeanFold l : Int) : ℚ) - ((directMean l : Int) : ℚ)|
      < (l.length : ℚ) := by
    have h2 : |(l.sum : ℚ) / (l.length : ℚ) - ((directMean l : Int) : ℚ)| < 1 := by
      rw [abs_sub_comm]
      exact hdirect
    calc |((runningMeanFold l : Int) : ℚ) - ((directMean l : Int) : ℚ)| ≤ _ := htri
      _ < ((l.length : ℚ) - 1) + 1 := by linarith
      _ = (l.length : ℚ) := by ring
  have hcast : (((runningMeanFold l - directMean l).natAbs : Nat) : ℚ)
      = |((runningMeanFold l : Int) : ℚ) - ((directMean l : Int) : ℚ)| := by
    rw [Int.cast_natAbs]
    push_cast
    ring_nf
  have : (((runningMeanFold l - directMean l).natAbs : Nat) : ℚ) < (l.length : ℚ) := by
    rw [hcast]; exact habs
  exact_mod_cast this

theorem list2CmdlineAux_length_ge :
    ∀ (rest : List Char) (prev inQuote : Option Char) (b : List Char)
      (parts : List (List Char)),
      parts.length + 1 ≤ (list2CmdlineAux rest prev inQuote b parts).length := by
  intro rest
  induction rest with
  | nil =>
    intro prev inQuote b parts
    simp [list2CmdlineAux]
  | cons ch rest ih =>
    intro prev inQuote b parts
    simp only [list2CmdlineAux]
    split_ifs with h1 h2
    · cases inQuote with
      | none => exact ih _ _ _ _
      | some q =>
        dsimp only
        split_ifs with hq
        · exact ih _ _ _ _
        · exact ih _ _ _ _
    · have := ih (some ch) inQuote [] (parts ++ [b])
      simp only [List.length_append, List.length_cons, List.length_nil] at this
      omega
    · exact ih _ _ _ _

theorem denominators_pos : ∀ d ∈ denominators, (0 : Int) < d := by decide

theorem gm_tier_aux (t dv : Int) (hdvpos : 0 < dv) (hmem : dv ∈ denominators)
    (hle : dv ≤ t) (hupper : ∀ d ∈ denominators, dv < d → t < d) :
    dv ∈ denominators ∧ 0 < t.tdiv dv ∧
      ∀ d ∈ denominators, dv < d → t.tdiv d ≤ 0 :=
  ⟨hmem, (tdiv_pos_iff hdvpos).2 hle,
   fun d hd hlt => tdiv_nonpos_of_lt (denominators_pos d hd) (hupper d hd hlt)⟩

theorem summaryLoop_map_fst :
    ∀ (fastest : Option SummaryInput) (l : List SummaryInput),
      (summaryLoop fastest l).map Prod.fst = l := by
  intro fastest l
  induction l generalizing fastest with
  | nil => cases fastest <;> simp [summaryLoop]
  | cons x xs ih => cases fastest <;> simp [summaryLoop, ih]

theorem compareResults_sorted (l : List SummaryInput) :
    List.Pairwise (fun a b => a.1.mean ≤ b.1.mean) (compareResults l) := by
  unfold compareResults
  split_ifs with h
  · have hs : List.Sorted (fun a b : SummaryInput => a.mean ≤ b.mean) (sortByMean l) :=
      List.sorted_insertionSort _ l
    have hmap := summaryLoop_map_fst none (sortByMean l)
    have := @List.pairwise_map (SummaryInput × Option RatioEntry) SummaryInput
      Prod.fst (fun a b : SummaryInput => a.mean ≤ b.mean)
      (summaryLoop none (sortByMean l))
    rw [hmap] at this
    exact this.1 hs
  · simp

theorem summaryLoop_some_eq (f : SummaryInput) :
    ∀ l : List SummaryInput,
      summaryLoop (some f) l
        = l.map (fun r => (r, some ⟨specSpeedRatio r f, specSpeedRatioUncertainty r f⟩)) := by
  intro l
  induction l with
  | nil => simp [summaryLoop]
  | cons x xs ih =>
    simp only [summaryLoop, List.map_cons, ih, specSpeedRatio, specSpeedRatioUncertainty]

theorem sortByMean_cons (x : SummaryInput) (xs : List SummaryInput) :
    sortByMean (x :: xs)
      = List.orderedInsert (fun a b => a.mean ≤ b.mean) x (sortByMean xs) := rfl

theorem filter_orderedInsert_pos (x : SummaryInput) (s : List SummaryInput) :
    (List.orderedInsert (fun a b => a.mean ≤ b.mean) x s).filter
        (fun r => r.mean == x.mean)
      = x :: s.filter (fun r => r.mean == x.mean) := by
  rw [List.orderedInsert_eq_take_drop, List.filter_append]
  have htake : (List.takeWhile (fun b => decide ¬(x.mean ≤ b.mean)) s).filter
      (fun r => r.mean == x.mean) = [] := by
    rw [List.filter_eq_nil_iff]
    intro a ha
    have h := List.mem_takeWhile_imp ha
    simp at h
    show ¬(a.mean == x.mean) = true
    rw [beq_iff_eq]
    omega
  rw [htake, List.nil_append,
    List.filter_cons_of_pos (by simp)]
  conv_rhs =>
    rw [← List.takeWhile_append_dropWhile (fun b => decide ¬(x.mean ≤ b.mean)) s,
      List.filter_append, htake, List.nil_append]

theorem filter_orderedInsert_neg (x : SummaryInput) (s : List SummaryInput)
    (m : Int) (hx : ¬x.mean = m) :
    (List.orderedInsert (fun a b => a.mean ≤ b.mean) x s).filter
        (fun r => r.mean == m)
      = s.filter (fun r => r.mean == m) := by
  rw [List.orderedInsert_eq_take_drop, List.filter_append,
    List.filter_cons_of_neg (by simp [hx])]
  conv_rhs =>
    rw [← List.takeWhile_append_dropWhile (fun b => decide ¬(x.mean ≤ b.mean)) s,
      List.filter_append]

theorem filter_sortByMean (l : List SummaryInput) (m : Int) :
    (sortByMean l).filter (fun r => r.mean == m) = l.filter (fun r => r.mean == m) := by
  induction l with
  | nil => rfl
  | cons x xs ih =>
    rw [sortByMean_cons]
    by_cases hx : x.mean = m
    · subst hx
      rw [filter_orderedInsert_pos, ih, List.filter_cons_of_pos (by simp)]
    · rw [filter_orderedInsert_neg x _ m hx, ih,
        List.filter_cons_of_neg (by simp [hx])]

/-! ### The claims -/

/-- C1 (counterexample): a child process that starts normally, runs to
    completion and exits with exit code 1 makes `windowsTimer.Run` return an
    error — Go's `cmd.Wait` reports a non-zero exit status as an error — and
    a measured iteration whose `Run` errors aborts `runBenchmark`, so the
    timing of such a run is not kept as a sample. This refutes the claim
    that a non-zero exit code is not an error and yields a valid sample. -/
theorem windowsTimerRun_nonzero_exit_is_error :
    windowsTimerRun zeroTimer exitOneBehavior = Except.error WinRunError.waitFailed ∧
    runBenchmark cmdX 0 1 allWarmupsOk failingTimer
      = Except.error BenchError.measuredRunFailed :=
  ⟨by decide, by decide⟩

/-- C1 (amended): `windowsTimer.Run` succeeds exactly when the process
    starts, every job-object/thread step and the accounting query succeed,
    the wait succeeds at the OS level, and the child exits with exit code
    zero; in particular a completed run with a non-zero exit code is an
    error and aborts the benchmark. -/
theorem windowsTimerRun_ok_iff (w : WindowsTimer) (b : WinProcessBehavior) :
    (windowsTimerRun w b).isOk = true ↔
      (b.startOk = true ∧ b.createJobOk = true ∧ b.openProcessOk = true ∧
       b.assignOk = true ∧ b.mainThreadOk = true ∧ b.waitSyscallOk = true ∧
       b.exitCode = 0 ∧ b.queryOk = true) := by
  unfold windowsTimerRun cmdWaitErr
  split_ifs with h1 h2 h3 h4 h5 h6 h7 <;>
    simp_all [Except.isOk, Except.toBool, bne_iff_ne] <;>
    (try intro hw he) <;> rcases h6 with h6 | h6 <;> simp_all

/-- C2: for every non-empty sample set a successful `runBenchmark` collects,
    the emitted benchmarkResult satisfies min ≤ mean ≤ max, where the mean
    is the truncated sum-over-count of the same real-time sample array that
    min and max are folded from. -/
theorem benchmarkResult_min_le_mean_le_max
    (cmd : List Char) (warmup runs : Int) (warmupOk : Nat → Bool)
    (timer : Nat → IterOutcome) (r : BenchmarkResult) (trace : List ProgressEntry)
    (h : runBenchmark cmd warmup runs warmupOk timer = Except.ok (r, trace)) :
    r.min ≤ r.mean ∧ r.mean ≤ r.max := by
  obtain ⟨st, hst, hruns, -, hmin, hmax, hmean, -⟩ := runBenchmark_ok_inv h
  obtain ⟨htot, hbounds⟩ := aggregateElapsed_spec st.elapsedRuns
  have hlow : (aggregateElapsed st.elapsedRuns).1 * (st.elapsedRuns.length : Int)
      ≤ st.elapsedRuns.sum :=
    mul_length_le_sum _ _ (fun x hx => (hbounds x hx).1)
  have hhigh : st.elapsedRuns.sum
      ≤ (aggregateElapsed st.elapsedRuns).2.1 * (st.elapsedRuns.length : Int) :=
    sum_le_mul_length _ _ (fun x hx => (hbounds x hx).2)
  have hlen : st.elapsedRuns.length = runs.toNat :=
    by simpa [emptyLoopState] using (measureLoop_ok_lengths timer runs runs.toNat 0 _ _ hst).1
  have hlenInt : (st.elapsedRuns.length : Int) = runs := by
    rw [hlen]; omega
  rw [hlenInt] at hlow hhigh
  rw [hmin, hmax, hmean, htot]
  exact ⟨le_tdiv_of_mul_le hruns hlow, tdiv_le_of_le_mul hruns hhigh⟩

/-- C2 (witness): a concrete two-run benchmark whose emitted result obeys
    min ≤ mean ≤ max. -/
theorem benchmarkResult_min_le_mean_le_max_witness :
    runBenchmark cmdX 0 2 allWarmupsOk timer10 = Except.ok (c2Result, c2Trace) ∧
    (c2Result.min ≤ c2Result.mean ∧ c2Result.mean ≤ c2Result.max) :=
  ⟨by decide,
   benchmarkResult_min_le_mean_le_max cmdX 0 2 allWarmupsOk timer10 c2Result c2Trace
     (by decide)⟩

/-- C3: with a run count of exactly 1 the emitted result has
    min = max = mean, but the stdev is not left unset: the sample-stdev
    routine is applied to the one-element sample array, so the value handed
    to math.Sqrt is the float division 0.0/0.0 = NaN, and the NaN stdev is
    carried into the printed result. (The min = max = mean part of the
    claim holds; the stdev-unset part is refuted by this evaluation.) -/
theorem runBenchmark_single_run_stdev_nan :
    (runBenchmark cmdX 0 1 allWarmupsOk timer42).toOption.map
        (fun p => (p.1.mean, p.1.min, p.1.max, p.1.stdevSq))
      = some (42, 42, 42, GoFloat.nan) := by
  decide

/-- C4: invoked with a run count of 0, runBenchmark does not fail with a
    configuration error — it reaches the aggregation step with an empty
    sample array and performs the integer division totalElapsed / runs
    = 0 / 0, a Go runtime panic (modelled as the explicit intDivByZero
    error), so the claim that it cannot crash is refuted. -/
theorem runBenchmark_zero_runs_divide_by_zero :
    runBenchmark cmdX 0 0 allWarmupsOk timer42
      = Except.error BenchError.intDivByZero := by
  decide

/-- C5 (counterexample): with runCount = 2 and constant 10 ns samples, the
    first progress line has completedCount = 1 and running mean 10, so the
    claimed ETA runningMean * (runCount - completedCount) is 10 * (2 - 1)
    = 10; but the code records ETA 20 = 10 * (2 - 0), using the zero-based
    index of the just-completed iteration instead of the completed count. -/
theorem progress_eta_counterexample :
    (runBenchmark cmdX 0 2 allWarmupsOk timer10).toOption.map
        (fun p => p.2.map (fun e => (e.estimate, e.eta)))
      = some [(10, 20), (10, 10)] ∧
    (10 : Int) * (2 - 1) ≠ 20 :=
  ⟨by decide, by decide⟩

/-- C5 (amended): after each measured iteration the ETA passed to the
    progress output equals runningMean * (runCount - k) where k is the
    zero-based index of the just-completed iteration — equivalently
    runningMean * (runCount - completedCount + 1). -/
theorem progress_eta_formula
    (cmd : List Char) (warmup runs : Int) (warmupOk : Nat → Bool)
    (timer : Nat → IterOutcome) (r : BenchmarkResult) (trace : List ProgressEntry)
    (h : runBenchmark cmd warmup runs warmupOk timer = Except.ok (r, trace)) :
    ∀ (k : Nat) (hk : k < trace.length),
      (trace.get ⟨k, hk⟩).eta = (trace.get ⟨k, hk⟩).estimate * (runs - (k : Int)) := by
  obtain ⟨st, hst, -, htrace, -⟩ := runBenchmark_ok_inv h
  subst htrace
  have hspec := measureLoop_etaSpec timer runs runs.toNat 0 emptyLoopState st hst
    (by simp [emptyLoopState]) (by intro k hk; simp [emptyLoopState] at hk)
  intro k hk
  simpa [List.get_eq_getElem] using hspec k hk

/-- C5 (witness): the amended ETA formula evaluated on the first progress
    entry of a concrete two-run benchmark. -/
theorem progress_eta_formula_witness :
    runBenchmark cmdX 0 2 allWarmupsOk timer10 = Except.ok (c2Result, c2Trace) ∧
    (c2Trace.get ⟨0, by decide⟩).eta
      = (c2Trace.get ⟨0, by decide⟩).estimate * (2 - ((0 : Nat) : Int)) :=
  ⟨by decide,
   progress_eta_formula cmdX 0 2 allWarmupsOk timer10 c2Result c2Trace (by decide)
     0 (by decide)⟩

/-- C6 (counterexample): the input -1 is not zero, yet the unit-selection
    scan returns the zero-divisor/empty-label sentinel for it (every tier
    quotient of a negative timing truncates to a non-positive value), so
    the sentinel is not returned only for input exactly zero. -/
theorem getMeasurementMetrics_negative_sentinel :
    getMeasurementMetrics (-1) = (0, "") ∧ (-1 : Int) ≠ 0 :=
  ⟨by decide, by decide⟩

/-- C6 (amended): the unit-selection scan never divides by zero (its tier
    divisors are the positive constants of the denominators table), returns
    the sentinel exactly for inputs ≤ 0, and for every positive input
    returns the first tier — scanning hours down to nanoseconds — whose
    divisor divides the input to a quotient greater than zero. -/
theorem getMeasurementMetrics_first_tier :
    ∀ t : Int,
      (getMeasurementMetrics t = (0, "") ↔ t ≤ 0) ∧
      (0 < t →
        (getMeasurementMetrics t).1 ∈ denominators ∧
        0 < t.tdiv (getMeasurementMetrics t).1 ∧
        ∀ d ∈ denominators, (getMeasurementMetrics t).1 < d → t.tdiv d ≤ 0) := by
  intro t
  rw [getMeasurementMetrics_eq]
  constructor
  · split_ifs <;> simp [Prod.ext_iff] <;> omega
  · intro ht
    split_ifs with h1 h2 h3 h4 h5 h6
    · refine gm_tier_aux t 3600000000000 (by norm_num) (by decide) h1 ?_
      intro d hd hlt
      simp [denominators] at hd
      rcases hd with rfl | rfl | rfl | rfl | rfl | rfl <;> omega
    · refine gm_tier_aux t 60000000000 (by norm_num) (by decide) h2 ?_
      intro d hd hlt
      simp [denominators] at hd
      rcases hd with rfl | rfl | rfl | rfl | rfl | rfl <;> omega
    · refine gm_tier_aux t 1000000000 (by norm_num) (by decide) h3 ?_
      intro d hd hlt
      simp [denominators] at hd
      rcases hd with rfl | rfl | rfl | rfl | rfl | rfl <;> omega
    · refine gm_tier_aux t 1000000 (by norm_num) (by decide) h4 ?_
      intro d hd hlt
      simp [denominators] at hd
      rcases hd with rfl | rfl | rfl | rfl | rfl | rfl <;> omega
    · refine gm_tier_aux t 1000 (by norm_num) (by decide) h5 ?_
      intro d hd hlt
      simp [denominators] at hd
      rcases hd with rfl | rfl | rfl | rfl | rfl | rfl <;> omega
    · refine gm_tier_aux t 1 (by norm_num) (by decide) h6 ?_
      intro d hd hlt
      simp [denominators] at hd
      rcases hd with rfl | rfl | rfl | rfl | rfl | rfl <;> omega
    · exact absurd ht (by omega)

/-- C6 (witness): the amended first-tier property evaluated at the input
    2000 ns, which selects the microseconds tier. -/
theorem getMeasurementMetrics_first_tier_witness :
    (0 : Int) < 2000 ∧
    ((getMeasurementMetrics 2000).1 ∈ denominators ∧
     0 < (2000 : Int).tdiv (getMeasurementMetrics 2000).1 ∧
     ∀ d ∈ denominators, (getMeasurementMetrics 2000).1 < d → (2000 : Int).tdiv d ≤ 0) :=
  ⟨by decide, (getMeasurementMetrics_first_tier 2000).2 (by decide)⟩

/-- C7: the comparison summary stable-sorts the results ascending by mean
    real time (sorted output, and elements of equal mean keep their input
    order); the fastest result is the baseline and carries no ratio entry,
    and a single result produces no ratio entries at all; every later entry
    carries exactly the spec's ratio mean / baselineMean and the spec's
    uncertainty |(mean+stdev)/(baselineMean+stdev) - ratio| +
    |ratio - (mean-stdev)/(baselineMean-stdev)|; and on mean=100,stdev=10
    against baseline mean=50,stdev=5 the ratio is 2.00 with uncertainty 0. -/
theorem compareResults_spec :
    (∀ l : List SummaryInput,
        List.Pairwise (fun a b => a.1.mean ≤ b.1.mean) (compareResults l)) ∧
    (∀ (l : List SummaryInput) (m : Int),
        (sortByMean l).filter (fun r => r.mean == m)
          = l.filter (fun r => r.mean == m)) ∧
    (∀ r : SummaryInput, compareResults [r] = []) ∧
    (∀ (l : List SummaryInput) (f : SummaryInput) (rest : List SummaryInput),
        1 < l.length → sortByMean l = f :: rest →
        compareResults l
          = (f, none) :: rest.map
              (fun r => (r, some ⟨specSpeedRatio r f, specSpeedRatioUncertainty r f⟩))) ∧
    compareResults [sIn100, sIn50] = [(sIn50, none), (sIn100, some ⟨2, 0⟩)] := by
  have h4 : ∀ (l : List SummaryInput) (f : SummaryInput) (rest : List SummaryInput),
      1 < l.length → sortByMean l = f :: rest →
      compareResults l
        = (f, none) :: rest.map
            (fun r => (r, some ⟨specSpeedRatio r f, specSpeedRatioUncertainty r f⟩)) := by
    intro l f rest hlen hsort
    unfold compareResults
    rw [if_pos hlen, hsort]
    show (f, none) :: summaryLoop (some f) rest = _
    rw [summaryLoop_some_eq]
  refine ⟨compareResults_sorted, filter_sortByMean, ?_, h4, ?_⟩
  · intro r
    rfl
  · have hinst := h4 [sIn100, sIn50] sIn50 [sIn100] (by decide) (by rfl)
    rw [hinst]
    simp only [List.map_cons, List.map_nil]
    have hr : specSpeedRatio sIn100 sIn50 = 2 := by
      norm_num [specSpeedRatio, sIn100, sIn50]
    have hu : specSpeedRatioUncertainty sIn100 sIn50 = 0 := by
      norm_num [specSpeedRatioUncertainty, specSpeedRatio, sIn100, sIn50]
    rw [hr, hu]

/-- C7 (witness): the ratio-entry characterisation applied to the concrete
    pair of results mean=100,stdev=10 and mean=50,stdev=5. -/
theorem compareResults_spec_witness :
    (1 < ([sIn100, sIn50] : List SummaryInput).length) ∧
    sortByMean [sIn100, sIn50] = sIn50 :: [sIn100] ∧
    compareResults [sIn100, sIn50]
      = (sIn50, none) :: [sIn100].map
          (fun r => (r, some ⟨specSpeedRatio r sIn50, specSpeedRatioUncertainty r sIn50⟩)) :=
  ⟨by decide, by rfl,
   compareResults_spec.2.2.2.1 [sIn100, sIn50] sIn50 [sIn100] (by decide) (by rfl)⟩

/-- C8: folding the integer running-mean update over any non-empty sample
    sequence lands within integer-truncation tolerance of the direct
    truncated mean (the absolute gap is strictly below the sample count);
    the mean in the emitted benchmarkResult is recomputed from the full
    sample array as sum-over-count; and the two disagree on the concrete
    sequence samples [1, 0, 2] (fold 0, direct mean 1), so the emitted mean is
    not the incremental accumulator's value. -/
theorem runningMean_refinement :
    (∀ l : List Int, l ≠ [] →
        (runningMeanFold l - directMean l).natAbs < l.length) ∧
    (∀ (cmd : List Char) (warmup runs : Int) (warmupOk : Nat → Bool)
        (timer : Nat → IterOutcome) (r : BenchmarkResult)
        (trace : List ProgressEntry) (st : LoopState),
        measureLoop timer runs 0 runs.toNat emptyLoopState = Except.ok st →
        runBenchmark cmd warmup runs warmupOk timer = Except.ok (r, trace) →
        r.mean = directMean st.elapsedRuns) ∧
    (runningMeanFold [1, 0, 2] = 0 ∧ directMean [1, 0, 2] = 1) := by
  refine ⟨runningMeanFold_close, ?_, by decide, by decide⟩
  intro cmd warmup runs warmupOk timer r trace st hml hrb
  obtain ⟨st', hst', hruns, -, -, -, hmean, -⟩ := runBenchmark_ok_inv hrb
  rw [hml] at hst'
  have hstEq := Except.ok.inj hst'
  rw [← hstEq] at hmean
  have hlen : st.elapsedRuns.length = runs.toNat := by
    simpa [emptyLoopState] using (measureLoop_ok_lengths timer runs runs.toNat 0 _ _ hml).1
  have hlenInt : (st.elapsedRuns.length : Int) = runs := by
    rw [hlen]; omega
  have htot := (aggregateElapsed_spec st.elapsedRuns).1
  rw [hmean, htot]
  unfold directMean
  rw [hlenInt]

/-- C8 (witness): the tolerance bound at the sample list with the single
    element 5, and the final-mean recomputation at a concrete one-run
    benchmark. -/
theorem runningMean_refinement_witness :
    (([5] : List Int) ≠ [] ∧
      (runningMeanFold [5] - directMean [5]).natAbs < ([5] : List Int).length) ∧
    (measureLoop timer42 1 0 (1 : Int).toNat emptyLoopState = Except.ok c8St ∧
      runBenchmark cmdX 0 1 allWarmupsOk timer42 = Except.ok (c8Result, c8Trace) ∧
      c8Result.mean = directMean c8St.elapsedRuns) :=
  ⟨⟨by decide, runningMean_refinement.1 [5] (by decide)⟩,
   ⟨by decide, by decide,
    runningMean_refinement.2.1 cmdX 0 1 allWarmupsOk timer42 c8Result c8Trace c8St
      (by decide) (by decide)⟩⟩

/-- C9: the unit-selection function is monotone — a larger duration never
    selects a smaller-magnitude tier divisor than a smaller duration (the
    sentinel counting as the smallest), preserving the
    hours ≥ minutes ≥ seconds ≥ ms ≥ µs ≥ ns ordering. -/
theorem getMeasurementMetrics_monotone {a b : Int} (h : a ≤ b) :
    (getMeasurementMetrics a).1 ≤ (getMeasurementMetrics b).1 := by
  rw [getMeasurementMetrics_eq, getMeasurementMetrics_eq]
  split_ifs <;> simp <;> omega

/-- C9 (witness): monotonicity evaluated at 5 ns (nanoseconds tier) against
    2000 ns (microseconds tier). -/
theorem getMeasurementMetrics_monotone_witness :
    (5 : Int) ≤ 2000 ∧ (getMeasurementMetrics 5).1 ≤ (getMeasurementMetrics 2000).1 :=
  ⟨by decide, getMeasurementMetrics_monotone (by decide)⟩

/-- C10: the tokenizer returns at least one token for every input string
    (the empty input yields the one-element list holding the empty token),
    so the empty-command error branches of runSetup and runBenchmark are
    unreachable: neither can ever return the emptyCommand error. -/
theorem list2Cmdline_nonempty :
    ∀ cmd : List Char,
      1 ≤ (list2Cmdline cmd).length ∧
      (∀ runOk : Bool, runSetup cmd runOk ≠ Except.error BenchError.emptyCommand) ∧
      (∀ (warmup runs : Int) (warmupOk : Nat → Bool) (timer : Nat → IterOutcome),
        runBenchmark cmd warmup runs warmupOk timer ≠ Except.error BenchError.emptyCommand) := by
  intro cmd
  have hlen : 1 ≤ (list2Cmdline cmd).length := list2CmdlineAux_length_ge cmd none none [] []
  have hne : ¬((list2Cmdline cmd).length = 0) := by omega
  refine ⟨hlen, ?_, ?_⟩
  · intro runOk hcontra
    unfold runSetup at hcontra
    rw [if_neg hne] at hcontra
    split_ifs at hcontra
    simp at hcontra
  · intro warmup runs warmupOk timer hcontra
    unfold runBenchmark at hcontra
    rw [if_neg hne] at hcontra
    split_ifs at hcontra
    · simp at hcontra
    · simp at hcontra
    · split at hcontra
      case _ e he =>
        cases hcontra
        exact absurd (measureLoop_error_eq timer runs runs.toNat 0 emptyLoopState _ he)
          (by simp)
      case _ st hst =>
        split at hcontra
        case _ e he =>
          cases hcontra
          unfold goIntDiv at he
          split_ifs at he
          simp at he
        case _ mean hmean =>
          split at hcontra
          case _ e he =>
            cases hcontra
            unfold goIntDiv at he
            split_ifs at he
            simp at he
          case _ meanU hmeanU =>
            split at hcontra
            case _ e he =>
              cases hcontra
              unfold goIntDiv at he
              split_ifs at he
              simp at he
            case _ meanK hmeanK =>
              simp at hcontra

/-- C10 (witness): the guarantee evaluated at the concrete one-character
    command string. -/
theorem list2Cmdline_nonempty_witness :
    1 ≤ (list2Cmdline cmdX).length ∧
    runSetup cmdX true ≠ Except.error BenchError.emptyCommand ∧
    runBenchmark cmdX 0 1 allWarmupsOk timer42 ≠ Except.error BenchError.emptyCommand :=
  ⟨(list2Cmdline_nonempty cmdX).1,
   (list2Cmdline_nonempty cmdX).2.1 true,
   (list2Cmdline_nonempty cmdX).2.2 0 1 allWarmupsOk timer42⟩
